import Mathlib

/-!
Shallow embedding of the mkwaffle core (daily waffle puzzle game):
* `daily.ts` / `dailyPuzzle.ts`: the mulberry32 PRNG, the seeded Fisher-Yates
  shuffle, puzzle generation (`generatePuzzle`, `getDailyPuzzle`).
* `gameLogic.ts`: the waffle grid shape, initial-state scrambling
  (`generateDerangement`, `generateInitialState`) and feedback coloring
  (`updateColors`, `checkWin`).

Machine number conventions: JavaScript 32-bit integer operations are modelled
on `Nat` with explicit `% 2^32`; the PRNG's float output `u / 2^32` is kept as
the numerator `u : Nat` (exact, because `u < 2^32 ≤ 2^53`), and the one place
the float is compared or multiplied (`rand < 0.25`, `floor(rand * (i+1))`) is
translated to the equivalent exact integer arithmetic.
-/

set_option linter.unusedSectionVars false

namespace Mkwaffle

/-! ### Cell statuses and grids (`types.ts`) -/

inductive CellStatus where
  | CORRECT
  | PRESENT
  | WRONG
  | NONE
  deriving DecidableEq, Repr

structure CellData (α : Type) where
  char : α
  status : CellStatus
  deriving DecidableEq, Repr

/-- A grid coordinate `(row, col)` of the 5×5 board. -/
abbrev Coord := Fin 5 × Fin 5

/-- The board: a cell for each of the 25 coordinates. -/
abbrev Grid (α : Type) := Coord → CellData α

/-- A solution: a character for each of the 25 coordinates
(blank placeholder at the four gaps). -/
abbrev Solution (α : Type) := Coord → α

/-- `gameLogic.ts` `isValidCell`: rows 0,2,4 and columns 0,2,4 participate;
gaps are exactly the odd-odd cells. -/
def isValidCell (r c : Nat) : Bool :=
  r % 2 == 0 || c % 2 == 0

/-- `gameLogic.ts` `VALID_COORDS`: the 21 valid coordinates in row-major
order. -/
def VALID_COORDS : List Coord :=
  (((List.finRange 5).flatMap fun r => (List.finRange 5).map fun c => (r, c)).filter
    fun p => isValidCell p.1.val p.2.val)

/-- Row-major (scan) order on coordinates: the order in which
`VALID_COORDS` is built and traversed. -/
def rmLT (a b : Coord) : Prop :=
  a.1.val < b.1.val ∨ (a.1.val = b.1.val ∧ a.2.val < b.2.val)

instance (a b : Coord) : Decidable (rmLT a b) := by
  unfold rmLT; exact inferInstance

/-! ### mulberry32 and the seeded shuffle (`daily.ts`) -/

/-- `2^32`, the modulus of all JavaScript `ToUint32` conversions. -/
def U32 : Nat := 4294967296

/-- JavaScript `ToUint32` on an (exact) integer. -/
def toUint32 (x : Int) : Nat := (x % (U32 : Int)).toNat

/-- JavaScript `Math.imul`, viewed modulo `2^32`. -/
def imul32 (x y : Nat) : Nat := (x * y) % U32

/-- The mixing rounds of mulberry32 applied to the 32-bit state `t`:
`t = Math.imul(t ^ (t >>> 15), t | 1)`;
`t ^= t + Math.imul(t ^ (t >>> 7), t | 61)`;
`return ((t ^ (t >>> 14)) >>> 0) / 4294967296` (we return the numerator). -/
def mulberryMix (t0 : Nat) : Nat :=
  let t1 := imul32 (t0 ^^^ (t0 >>> 15)) (t0 ||| 1)
  let t2 := t1 ^^^ ((t1 + imul32 (t1 ^^^ (t1 >>> 7)) (t1 ||| 61)) % U32)
  (t2 ^^^ (t2 >>> 14)) % U32

/-- One call of the generator returned by `mulberry32(a)`:
`let t = a += 0x6D2B79F5` followed by the mixing rounds. Returns the
numerator of the produced value in `[0,1)` together with the new state. -/
def mulberryNext (a : Int) : Nat × Int :=
  let a' := a + 0x6D2B79F5
  (mulberryMix (toUint32 a'), a')

/-- The generator state after `n` calls of a generator created from `seed`. -/
def mulberryState (seed : Int) : Nat → Int
  | 0 => seed
  | n + 1 => (mulberryNext (mulberryState seed n)).2

/-- The numerator of the `n`-th value (0-based) produced by
`mulberry32(seed)`. -/
def mulberryOut (seed : Int) (n : Nat) : Nat :=
  (mulberryNext (mulberryState seed n)).1

/-- The `n`-th float value produced by `mulberry32(seed)`, as an exact
rational. -/
def mulberryValue (seed : Int) (n : Nat) : ℚ :=
  (mulberryOut seed n : ℚ) / (U32 : ℚ)

/-- Swap positions `i` and `j` of a list
(`[a[i], a[j]] = [a[j], a[i]]`). -/
def swapList [Inhabited α] (xs : List α) (i j : Nat) : List α :=
  (xs.set i (xs.getD j default)).set j (xs.getD i default)

/-- The body of `seededShuffle`'s Fisher-Yates loop, recursing on the loop
index `i` (from `length - 1` down to `1`); `st` is the PRNG state.
`const j = Math.floor(rng() * (i + 1))` is the exact integer
`out * (i + 1) / 2^32`. -/
def fisherYates [Inhabited α] (st : Int) (xs : List α) : Nat → List α
  | 0 => xs
  | k + 1 =>
    fisherYates (mulberryNext st).2
      (swapList xs (k + 1) ((mulberryNext st).1 * (k + 2) / U32)) k

/-- `daily.ts` `seededShuffle` (also inlined in `generatePuzzle`). -/
def seededShuffle [Inhabited α] (l : List α) (seed : Int) : List α :=
  fisherYates seed l (l.length - 1)

/-! ### Feedback coloring (`gameLogic.ts` `updateColors`) -/

variable {α : Type} [DecidableEq α]

/-- Actual row of the `rowIdx`-th horizontal word (`rowIdx * 2`). -/
def rowOf (i : Fin 3) : Fin 5 := ⟨2 * i.val, by have := i.isLt; omega⟩

/-- Actual column of the `colIdx`-th vertical word (`colIdx * 2`). -/
def colOf (i : Fin 3) : Fin 5 := ⟨2 * i.val, by have := i.isLt; omega⟩

/-- Horizontal word index of an even row (`row / 2`). -/
def rowIdxOf (r : Fin 5) : Fin 3 := ⟨r.val / 2, by have := r.isLt; omega⟩

/-- Vertical word index of an even column (`col / 2`). -/
def colIdxOf (c : Fin 5) : Fin 3 := ⟨c.val / 2, by have := c.isLt; omega⟩

/-- First pass of `updateColors`: over the valid coordinates, mark `CORRECT`
on an exact match with the solution and `WRONG` otherwise; the grid's
characters and the gap cells are untouched. -/
def markCorrect (g : Grid α) (sol : Solution α) : Grid α := fun p =>
  if isValidCell p.1.val p.2.val then
    if (g p).char = sol p then ⟨(g p).char, CellStatus.CORRECT⟩
    else ⟨(g p).char, CellStatus.WRONG⟩
  else g p

/-- `rowRemaining[i].get(ch)`: in row `2*i`, the number of positions whose
current character differs from the solution and whose solution character is
`ch`. -/
def rowNeedCount (g : Grid α) (sol : Solution α) (i : Fin 3) (ch : α) : Nat :=
  ((List.finRange 5).filter fun c =>
    decide ((g (rowOf i, c)).char ≠ sol (rowOf i, c)) &&
    decide (sol (rowOf i, c) = ch)).length

/-- `colRemaining[i].get(ch)`: in column `2*i`, the number of positions whose
current character differs from the solution and whose solution character is
`ch`. -/
def colNeedCount (g : Grid α) (sol : Solution α) (i : Fin 3) (ch : α) : Nat :=
  ((List.finRange 5).filter fun r =>
    decide ((g (r, colOf i)).char ≠ sol (r, colOf i)) &&
    decide (sol (r, colOf i) = ch)).length

/-- The state threaded through the second (`PRESENT`) pass: the grid being
recolored plus the per-word remaining-need maps. -/
structure ColorState (α : Type) where
  grid : Grid α
  rr : Fin 3 → α → Nat
  cr : Fin 3 → α → Nat

/-- `remaining.set(char, remaining - 1)`: decrement a need map at one
word-index/letter pair. -/
def decNeed (f : Fin 3 → α → Nat) (i : Fin 3) (ch : α) : Fin 3 → α → Nat :=
  fun j x => if j = i ∧ x = ch then f j x - 1 else f j x

/-- Overwrite the status of the cell at `p` (`newGrid[row][col].status = s`). -/
def setStatus (g : Grid α) (p : Coord) (s : CellStatus) : Grid α :=
  fun q => if q = p then ⟨(g p).char, s⟩ else g q

/-- The row check of the `PRESENT` pass: the cell sits on an even row and its
row's remaining need for its character is positive. -/
def rowHitB (st : ColorState α) (p : Coord) : Bool :=
  decide (p.1.val % 2 = 0) && decide (0 < st.rr (rowIdxOf p.1) ((st.grid p).char))

/-- The column check of the `PRESENT` pass: the cell sits on an even column
and its column's remaining need for its character is positive. -/
def colHitB (st : ColorState α) (p : Coord) : Bool :=
  decide (p.2.val % 2 = 0) && decide (0 < st.cr (colIdxOf p.2) ((st.grid p).char))

/-- One iteration of the `PRESENT` pass at coordinate `p`: skip `CORRECT`
cells; otherwise check the row and the column independently, claim (decrement)
each satisfied need, and mark the cell `PRESENT` if either check succeeded. -/
def pass2Step (st : ColorState α) (p : Coord) : ColorState α :=
  if (st.grid p).status = CellStatus.CORRECT then st
  else
    { grid :=
        if rowHitB st p || colHitB st p then setStatus st.grid p CellStatus.PRESENT
        else st.grid
      rr :=
        if rowHitB st p then decNeed st.rr (rowIdxOf p.1) ((st.grid p).char)
        else st.rr
      cr :=
        if colHitB st p then decNeed st.cr (colIdxOf p.2) ((st.grid p).char)
        else st.cr }

/-- The state entering the `PRESENT` pass: the grid after the `CORRECT` pass
together with the freshly computed remaining-need maps. -/
def initState (g : Grid α) (sol : Solution α) : ColorState α :=
  { grid := markCorrect g sol
    rr := fun i ch => rowNeedCount (markCorrect g sol) sol i ch
    cr := fun i ch => colNeedCount (markCorrect g sol) sol i ch }

/-- `gameLogic.ts` `updateColors`. -/
def updateColors (g : Grid α) (sol : Solution α) : Grid α :=
  (VALID_COORDS.foldl pass2Step (initState g sol)).grid

/-- The state of the `PRESENT` pass at the moment the row-major scan reaches
coordinate `p` (all valid coordinates strictly before `p` processed). -/
def scanState (g : Grid α) (sol : Solution α) (p : Coord) : ColorState α :=
  (VALID_COORDS.filter fun q => decide (rmLT q p)).foldl pass2Step (initState g sol)

/-- `gameLogic.ts` `checkWin`. -/
def checkWin (g : Grid α) : Bool :=
  VALID_COORDS.all fun p => (g p).status == CellStatus.CORRECT

/-! ### Scrambling (`gameLogic.ts` `generateDerangement`,
`generateInitialState`) -/

variable [Inhabited α]

/-- The derangement check inside the rejection-sampling loop: no position of
`shuffled` holds the letter of `originalPositions` at the same index. -/
def isDerangement (shuffled orig : List α) : Bool :=
  (List.range shuffled.length).all fun i =>
    !(shuffled.getD i default == orig.getD i default)

/-- The rejection-sampling loop of `generateDerangement`: try
`seededShuffle(letters, seed + attempt + 100)` for `attempt = 0, 1, …` while
fuel remains, returning the first shuffle that is a derangement. -/
def rejectionSearch (letters orig : List α) (seed : Int) :
    Nat → Nat → Option (List α)
  | _, 0 => none
  | attempt, rem + 1 =>
    if isDerangement (seededShuffle letters (seed + attempt + 100)) orig then
      some (seededShuffle letters (seed + attempt + 100))
    else rejectionSearch letters orig seed (attempt + 1) rem

/-- One iteration (index `i`) of the forced-derangement repair loop: if
position `i` collides with the original, first look for a "safe" swap partner
`j > i`, and failing that for any `j > i` whose letter differs from the
original at `i`. -/
def repairStep (orig : List α) (res : List α) (i : Nat) : List α :=
  if res.getD i default = orig.getD i default then
    match (List.range' (i + 1) (res.length - (i + 1))).find? (fun j =>
        decide (res.getD j default ≠ orig.getD j default) &&
        decide (res.getD i default ≠ orig.getD j default) &&
        decide (res.getD j default ≠ orig.getD i default)) with
    | some j => swapList res i j
    | none =>
      match (List.range' (i + 1) (res.length - (i + 1))).find?
          (fun j => decide (res.getD j default ≠ orig.getD i default)) with
      | some j => swapList res i j
      | none => res
  else res

/-- `gameLogic.ts` `generateDerangement` (with the caller's default
`maxAttempts = 100`): a single letter is returned as is; otherwise rejection
sampling, falling back to a shuffle with seed `seed + 999` repaired by
scanning every index. -/
def generateDerangement (letters orig : List α) (seed : Int) : List α :=
  if letters.length = 1 then letters
  else
    match rejectionSearch letters orig seed 0 100 with
    | some sh => sh
    | none =>
      let start := seededShuffle letters (seed + 999)
      (List.range start.length).foldl (repairStep orig) start

/-- The first PRNG draw of `generateInitialState` decides how many positions
stay green: 6 with weight 25%, 7 with 50%, 8 with 25%
(`rand < 0.25` is `out < 2^30`, `rand < 0.75` is `out < 3 * 2^30`). -/
def numGreensOf (seed : Int) : Nat :=
  if (mulberryNext seed).1 < 1073741824 then 6
  else if (mulberryNext seed).1 < 3221225472 then 7
  else 8

/-- The green positions: the first `numGreens` coordinates of the shuffled
copy of `VALID_COORDS` (seed `seed + 1`). -/
def greensOf (seed : Int) : List Coord :=
  (seededShuffle VALID_COORDS (seed + 1)).take (numGreensOf seed)

/-- The solution letters of the non-green valid cells, in row-major order
(both `nonGreenLetters` and `nonGreenOriginalLetters` of the source, which
are built identically). -/
def nonGreenLettersOf (sol : Solution α) (seed : Int) : List α :=
  (VALID_COORDS.filter fun p => decide (p ∉ greensOf seed)).map sol

/-- The deranged non-green letters (seed `seed + 2`). -/
def derangedOf (sol : Solution α) (seed : Int) : List α :=
  generateDerangement (nonGreenLettersOf sol seed) (nonGreenLettersOf sol seed)
    (seed + 2)

/-- The grid-building walk of `generateInitialState`: assign the valid
coordinates in row-major order, greens keeping their solution letter and the
others consuming the deranged letters one by one (`nonGreenIndex++`). -/
def fillChars (greens : List Coord) (sol : Solution α) :
    List Coord → List α → List (Coord × α)
  | [], _ => []
  | p :: rest, letters =>
    if p ∈ greens then (p, sol p) :: fillChars greens sol rest letters
    else (p, letters.headD default) :: fillChars greens sol rest letters.tail

/-- Association-list indexing for the built cells. -/
def assoc [DecidableEq κ] : List (κ × β) → κ → Option β
  | [], _ => none
  | (k, v) :: t, q => if q = k then some v else assoc t q

/-- The scrambled grid before recoloring: valid cells carry the assigned
characters with provisional status `WRONG`; gap cells are empty with status
`NONE`. -/
def preGridOf (sol : Solution α) (seed : Int) : Grid α := fun p =>
  if isValidCell p.1.val p.2.val then
    ⟨(assoc (fillChars (greensOf seed) sol VALID_COORDS (derangedOf sol seed)) p).getD
      default,
     CellStatus.WRONG⟩
  else ⟨default, CellStatus.NONE⟩

/-- `gameLogic.ts` `generateInitialState`, with the ambient daily seed
(`getDailySeed()`) made an explicit parameter. -/
def generateInitialState (sol : Solution α) (seed : Int) : Grid α :=
  updateColors (preGridOf sol seed) sol

/-- The number of valid cells whose letter already matches the solution. -/
def matchCount (g : Grid α) (sol : Solution α) : Nat :=
  (VALID_COORDS.filter fun p => decide ((g p).char = sol p)).length

/-! ### Daily puzzle generation (`dailyPuzzle.ts`) -/

/-- A word: a JavaScript string, indexed positionally (the word list holds
5-letter words). -/
abbrev Wd := List Char

/-- `DailyPuzzle` of `types.ts`: the seed (puzzle number) and the 5×5
solution character matrix. -/
structure DailyPuzzle where
  id : Int
  solution : List (List Char)
  deriving DecidableEq, Repr

/-- The hardcoded fallback solution grid. -/
def FALLBACK_SOLUTION : List (List Char) :=
  [['П', 'Л', 'А', 'Ж', 'А'],
   ['Е', ' ', 'Н', ' ', 'К'],
   ['В', 'Е', 'Т', 'Е', 'Р'],
   ['А', ' ', 'И', ' ', 'Е'],
   ['Ч', 'Е', 'К', 'О', 'Р']]

/-- `wordsByStart[first]`: the words starting with `first`, in word-list
order. -/
def wordsByStart (words : List Wd) (first : Char) : List Wd :=
  words.filter fun w => w.getD 0 ' ' == first

/-- `findMatch(c0, c2, c4, exclude)`: the first word starting with `c0`
whose third and fifth letters are `c2` and `c4` and that is not excluded. -/
def findMatch (words : List Wd) (c0 c2 c4 : Char) (ex : List Wd) : Option Wd :=
  (wordsByStart words c0).find? fun w =>
    decide (w.getD 2 ' ' = c2) && decide (w.getD 4 ' ' = c4) && decide (w ∉ ex)

/-- `buildGrid`: rows 0/2/4 hold `h1`/`h2`/`h3`, rows 1 and 3 hold the odd
characters of `v1`/`v2`/`v3`, gaps hold the blank placeholder. -/
def buildGrid (h1 h2 h3 v1 v2 v3 : Wd) : List (List Char) :=
  [[h1.getD 0 ' ', h1.getD 1 ' ', h1.getD 2 ' ', h1.getD 3 ' ', h1.getD 4 ' '],
   [v1.getD 1 ' ', ' ', v2.getD 1 ' ', ' ', v3.getD 1 ' '],
   [h2.getD 0 ' ', h2.getD 1 ' ', h2.getD 2 ' ', h2.getD 3 ' ', h2.getD 4 ' '],
   [v1.getD 3 ' ', ' ', v2.getD 3 ' ', ' ', v3.getD 3 ' '],
   [h3.getD 0 ' ', h3.getD 1 ' ', h3.getD 2 ' ', h3.getD 3 ' ', h3.getD 4 ' ']]

/-- `MAX_ATTEMPTS`: the fixed cap on inner-loop attempts. -/
def MAX_ATTEMPTS : Nat := 50000

/-- The innermost loop over `V3` candidates. Skipped candidates (already in
the exclude set) cost no attempt; each examined candidate either completes a
puzzle via `H2` and `H3` lookups or increments the attempts counter, breaking
once it exceeds the cap. -/
def loopV3 (seed : Int) (words : List Wd) (h1 v1 v2 : Wd) :
    List Wd → List Wd → Nat → Option DailyPuzzle × Nat
  | [], _, att => (none, att)
  | v3 :: rest, ex, att =>
    if v3 ∈ ex then loopV3 seed words h1 v1 v2 rest ex att
    else
      match findMatch words (v1.getD 2 ' ') (v2.getD 2 ' ') (v3.getD 2 ' ')
          (v3 :: ex) with
      | some h2 =>
        match findMatch words (v1.getD 4 ' ') (v2.getD 4 ' ') (v3.getD 4 ' ')
            (h2 :: v3 :: ex) with
        | some h3 => (some ⟨seed, buildGrid h1 h2 h3 v1 v2 v3⟩, att)
        | none =>
          if att + 1 > MAX_ATTEMPTS then (none, att + 1)
          else loopV3 seed words h1 v1 v2 rest ex (att + 1)
      | none =>
        if att + 1 > MAX_ATTEMPTS then (none, att + 1)
        else loopV3 seed words h1 v1 v2 rest ex (att + 1)

/-- The loop over `V2` candidates; after each inner run it breaks when the
cap is exceeded. -/
def loopV2 (seed : Int) (words : List Wd) (h1 v1 : Wd) :
    List Wd → List Wd → Nat → Option DailyPuzzle × Nat
  | [], _, att => (none, att)
  | v2 :: rest, ex, att =>
    if v2 ∈ ex then loopV2 seed words h1 v1 rest ex att
    else
      match loopV3 seed words h1 v1 v2 (wordsByStart words (h1.getD 4 ' '))
          (v2 :: ex) att with
      | (some p, att') => (some p, att')
      | (none, att') =>
        if att' > MAX_ATTEMPTS then (none, att')
        else loopV2 seed words h1 v1 rest ex att'

/-- The loop over `V1` candidates. -/
def loopV1 (seed : Int) (words : List Wd) (h1 : Wd) :
    List Wd → List Wd → Nat → Option DailyPuzzle × Nat
  | [], _, att => (none, att)
  | v1 :: rest, ex, att =>
    if v1 ∈ ex then loopV1 seed words h1 rest ex att
    else
      match loopV2 seed words h1 v1 (wordsByStart words (h1.getD 2 ' '))
          (v1 :: ex) att with
      | (some p, att') => (some p, att')
      | (none, att') =>
        if att' > MAX_ATTEMPTS then (none, att')
        else loopV1 seed words h1 rest ex att'

/-- The outer loop over `H1` candidates (every word of the shuffled list). -/
def loopH1 (seed : Int) (words : List Wd) :
    List Wd → Nat → Option DailyPuzzle × Nat
  | [], att => (none, att)
  | h1 :: rest, att =>
    match loopV1 seed words h1 (wordsByStart words (h1.getD 0 ' ')) [h1] att with
    | (some p, att') => (some p, att')
    | (none, att') =>
      if att' > MAX_ATTEMPTS then (none, att')
      else loopH1 seed words rest att'

/-- `generatePuzzle` with its result and final attempts counter: shuffle the
word list with `mulberry32(seed)` and run the heuristic depth-first search. -/
def generatePuzzleAux (wordList : List Wd) (seed : Int) :
    Option DailyPuzzle × Nat :=
  let words := seededShuffle wordList seed
  loopH1 seed words words 0

/-- `dailyPuzzle.ts` `generatePuzzle`, with the static word list `WORDS` made
an explicit parameter. -/
def generatePuzzle (wordList : List Wd) (seed : Int) : Option DailyPuzzle :=
  (generatePuzzleAux wordList seed).1

/-- `dailyPuzzle.ts` `getDailyPuzzle`: the generated puzzle when generation
succeeds, the fallback solution under the current seed otherwise. -/
def getDailyPuzzle (wordList : List Wd) (seed : Int) : DailyPuzzle :=
  match generatePuzzle wordList seed with
  | some p => p
  | none => ⟨seed, FALLBACK_SOLUTION⟩

/-! ### Concrete sample inputs used to exercise the theorems -/

/-- A sample solution with 21 pairwise distinct letters; row 0 is
`[А,Б,В,Г,Д]` and column 2 (`В,Ж,К,О,Т`) contains no `А`, as in the spec's
concrete duplicate-letter scenario. -/
def demoRows : List (List Char) :=
  [['А', 'Б', 'В', 'Г', 'Д'],
   ['Е', ' ', 'Ж', ' ', 'З'],
   ['И', 'Й', 'К', 'Л', 'М'],
   ['Н', ' ', 'О', ' ', 'П'],
   ['Р', 'С', 'Т', 'У', 'Ф']]

def demoSol : Solution Char := fun p => (demoRows.getD p.1.val []).getD p.2.val ' '

/-- Candidate grid for the duplicate-letter scenario: row 0 is
`[Х,А,А,Г,Д]`, all other cells agree with the solution. -/
def demoGridC1 : Grid Char := fun p =>
  if p.1.val = 0 then ⟨(['Х', 'А', 'А', 'Г', 'Д'].getD p.2.val ' '), CellStatus.WRONG⟩
  else ⟨demoSol p, CellStatus.WRONG⟩

/-- Candidate grid exercising the intersection-cell column check: the letters
of cells (0,2) and (2,2) are swapped (`В` ↔ `К`), everything else solved. -/
def demoGridC2 : Grid Char := fun p =>
  if p = ((0 : Fin 5), (2 : Fin 5)) then ⟨'К', CellStatus.WRONG⟩
  else if p = ((2 : Fin 5), (2 : Fin 5)) then ⟨'В', CellStatus.WRONG⟩
  else ⟨demoSol p, CellStatus.WRONG⟩

/-- The degenerate solution whose 21 valid letters are all `А` (gap cells
hold the blank placeholder). -/
def solA : Solution Char := fun p =>
  if isValidCell p.1.val p.2.val then 'А' else ' '

/-- A small word list admitting exactly one waffle arrangement
(`H1 = ABCDE`, `H2 = IJKLM`, `H3 = QRSTU`, `V1 = AFINQ`, `V2 = CGKOS`,
`V3 = EHMPU`). -/
def demoWords : List Wd :=
  [['A', 'B', 'C', 'D', 'E'],
   ['I', 'J', 'K', 'L', 'M'],
   ['Q', 'R', 'S', 'T', 'U'],
   ['A', 'F', 'I', 'N', 'Q'],
   ['C', 'G', 'K', 'O', 'S'],
   ['E', 'H', 'M', 'P', 'U']]

/-! ### Basic facts about the board -/

theorem mem_VALID_iff (p : Coord) :
    p ∈ VALID_COORDS ↔ isValidCell p.1.val p.2.val = true := by
  revert p; decide

theorem VALID_nodup : VALID_COORDS.Nodup := by decide

theorem VALID_sorted : VALID_COORDS.Pairwise rmLT := by decide

theorem rmLT_irrefl (a : Coord) : ¬rmLT a a := by
  unfold rmLT; omega

theorem rmLT_asymm {a b : Coord} (h : rmLT a b) : ¬rmLT b a := by
  unfold rmLT at *; omega

/-- A sorted list splits at any member into the strictly-smaller elements,
the member, and the strictly-larger elements. -/
theorem sorted_split :
    ∀ (L : List Coord), L.Pairwise rmLT → ∀ p ∈ L,
      L = (L.filter fun q => decide (rmLT q p)) ++
          p :: (L.filter fun q => decide (rmLT p q)) := by
  intro L
  induction L with
  | nil => intro _ p hp; cases hp
  | cons a t ih =>
    intro hs p hp
    have ha : ∀ b ∈ t, rmLT a b := (List.pairwise_cons.mp hs).1
    have ht : t.Pairwise rmLT := (List.pairwise_cons.mp hs).2
    rcases List.mem_cons.mp hp with rfl | hpt
    · have h1 : ((p :: t).filter fun q => decide (rmLT q p)) = [] := by
        rw [List.filter_cons]
        simp only [decide_eq_true_eq, rmLT_irrefl p, if_false]
        rw [List.filter_eq_nil_iff]
        intro b hb
        simpa using rmLT_asymm (ha b hb)
      have h2 : ((p :: t).filter fun q => decide (rmLT p q)) = t := by
        rw [List.filter_cons]
        simp only [decide_eq_true_eq, rmLT_irrefl p, if_false]
        rw [List.filter_eq_self]
        intro b hb
        simpa using ha b hb
      rw [h1, h2]; rfl
    · have h1 : ((a :: t).filter fun q => decide (rmLT q p)) =
          a :: (t.filter fun q => decide (rmLT q p)) := by
        rw [List.filter_cons, if_pos (by simpa using ha p hpt)]
      have h2 : ((a :: t).filter fun q => decide (rmLT p q)) =
          t.filter fun q => decide (rmLT p q) := by
        rw [List.filter_cons, if_neg (by simpa using rmLT_asymm (ha p hpt))]
      rw [h1, h2, List.cons_append]
      exact congrArg (a :: ·) (ih ht p hpt)

/-! ### Frame lemmas for the `PRESENT` pass -/

theorem pass2Step_char (st : ColorState α) (p q : Coord) :
    ((pass2Step st p).grid q).char = (st.grid q).char := by
  unfold pass2Step
  split
  · rfl
  · dsimp only
    split
    · unfold setStatus
      by_cases hqp : q = p
      · subst hqp; simp
      · simp [hqp]
    · rfl

theorem pass2Step_other (st : ColorState α) {p q : Coord} (h : q ≠ p) :
    (pass2Step st p).grid q = st.grid q := by
  unfold pass2Step
  split
  · rfl
  · dsimp only
    split
    · unfold setStatus; simp [h]
    · rfl

theorem foldl_pass2_char (L : List Coord) :
    ∀ (st : ColorState α) (q : Coord),
      ((L.foldl pass2Step st).grid q).char = (st.grid q).char := by
  induction L with
  | nil => intro st q; rfl
  | cons a t ih => intro st q; rw [List.foldl_cons, ih, pass2Step_char]

theorem foldl_pass2_untouched (L : List Coord) :
    ∀ (st : ColorState α) (q : Coord), q ∉ L →
      (L.foldl pass2Step st).grid q = st.grid q := by
  induction L with
  | nil => intro st q _; rfl
  | cons a t ih =>
    intro st q hq
    rw [List.foldl_cons, ih _ _ (fun h => hq (List.mem_cons_of_mem a h))]
    exact pass2Step_other st fun h => hq (by rw [h]; exact List.mem_cons_self a t)

theorem pass2Step_rr_le (st : ColorState α) (p : Coord) (i : Fin 3) (ch : α) :
    (pass2Step st p).rr i ch ≤ st.rr i ch := by
  unfold pass2Step
  split
  · exact le_refl _
  · dsimp only
    split
    · unfold decNeed
      split
      · exact Nat.sub_le _ _
      · exact le_refl _
    · exact le_refl _

theorem pass2Step_cr_le (st : ColorState α) (p : Coord) (i : Fin 3) (ch : α) :
    (pass2Step st p).cr i ch ≤ st.cr i ch := by
  unfold pass2Step
  split
  · exact le_refl _
  · dsimp only
    split
    · unfold decNeed
      split
      · exact Nat.sub_le _ _
      · exact le_refl _
    · exact le_refl _

theorem foldl_pass2_cr_le (L : List Coord) :
    ∀ (st : ColorState α) (i : Fin 3) (ch : α),
      (L.foldl pass2Step st).cr i ch ≤ st.cr i ch := by
  induction L with
  | nil => intro st i ch; exact le_refl _
  | cons a t ih =>
    intro st i ch
    rw [List.foldl_cons]
    exact le_trans (ih _ i ch) (pass2Step_cr_le st a i ch)

theorem rowHitB_even {st : ColorState α} {p : Coord} (h : rowHitB st p = true) :
    p.1.val % 2 = 0 := by
  have := (Bool.and_eq_true _ _).mp h
  exact of_decide_eq_true this.1

theorem pass2Step_rr_frozen (st : ColorState α) (p : Coord) (i : Fin 3) (ch : α)
    (h : ¬(p.1.val % 2 = 0 ∧ rowIdxOf p.1 = i ∧ (st.grid p).char = ch)) :
    (pass2Step st p).rr i ch = st.rr i ch := by
  unfold pass2Step
  split
  · rfl
  · dsimp only
    split
    case isTrue hb =>
      unfold decNeed
      rw [if_neg]
      rintro ⟨h1, h2⟩
      exact h ⟨rowHitB_even hb, h1.symm, h2.symm⟩
    · rfl

theorem foldl_pass2_rr_frozen (L : List Coord) :
    ∀ (st : ColorState α) (i : Fin 3) (ch : α),
      (∀ q ∈ L, ¬(q.1.val % 2 = 0 ∧ rowIdxOf q.1 = i ∧ (st.grid q).char = ch)) →
      (L.foldl pass2Step st).rr i ch = st.rr i ch := by
  induction L with
  | nil => intro st i ch _; rfl
  | cons a t ih =>
    intro st i ch hL
    rw [List.foldl_cons]
    rw [ih _ i ch, pass2Step_rr_frozen st a i ch (hL a (List.mem_cons_self a t))]
    intro q hq
    rw [pass2Step_char]
    exact hL q (List.mem_cons_of_mem a hq)

theorem pass2Step_skip (st : ColorState α) (p : Coord)
    (h : (st.grid p).status = CellStatus.CORRECT) : pass2Step st p = st := by
  unfold pass2Step; rw [if_pos h]

theorem pass2Step_hit (st : ColorState α) (p : Coord)
    (h : (st.grid p).status ≠ CellStatus.CORRECT)
    (hb : (rowHitB st p || colHitB st p) = true) :
    (pass2Step st p).grid p = ⟨(st.grid p).char, CellStatus.PRESENT⟩ := by
  unfold pass2Step
  rw [if_neg h]
  dsimp only
  rw [if_pos hb]
  unfold setStatus
  simp

theorem pass2Step_miss (st : ColorState α) (p : Coord)
    (hr : rowHitB st p = false) (hc : colHitB st p = false) :
    (pass2Step st p).grid = st.grid := by
  unfold pass2Step
  split
  · rfl
  · dsimp only
    rw [hr, hc]
    rfl

theorem pass2Step_rr_dec (st : ColorState α) (p : Coord)
    (h : (st.grid p).status ≠ CellStatus.CORRECT) (hb : rowHitB st p = true) :
    (pass2Step st p).rr (rowIdxOf p.1) ((st.grid p).char) =
      st.rr (rowIdxOf p.1) ((st.grid p).char) - 1 := by
  unfold pass2Step
  rw [if_neg h]
  dsimp only
  rw [if_pos hb]
  unfold decNeed
  rw [if_pos ⟨rfl, rfl⟩]

/-! ### Frame lemmas for `markCorrect` and `updateColors` -/

theorem markCorrect_char (g : Grid α) (sol : Solution α) (p : Coord) :
    ((markCorrect g sol) p).char = (g p).char := by
  unfold markCorrect
  split
  · split <;> rfl
  · rfl

theorem markCorrect_invalid (g : Grid α) (sol : Solution α) {p : Coord}
    (h : ¬isValidCell p.1.val p.2.val = true) : markCorrect g sol p = g p := by
  unfold markCorrect
  rw [if_neg h]

theorem updateColors_char (g : Grid α) (sol : Solution α) (p : Coord) :
    ((updateColors g sol) p).char = (g p).char := by
  unfold updateColors
  rw [foldl_pass2_char]
  exact markCorrect_char g sol p

theorem updateColors_invalid (g : Grid α) (sol : Solution α) {p : Coord}
    (h : ¬isValidCell p.1.val p.2.val = true) : updateColors g sol p = g p := by
  unfold updateColors
  rw [foldl_pass2_untouched _ _ _ (fun hmem => h ((mem_VALID_iff p).mp hmem))]
  exact markCorrect_invalid g sol h

theorem markCorrect_congr (g g' : Grid α) (sol : Solution α)
    (hchar : ∀ p, (g' p).char = (g p).char)
    (hinv : ∀ p, ¬isValidCell p.1.val p.2.val = true → g' p = g p) :
    markCorrect g' sol = markCorrect g sol := by
  funext p
  unfold markCorrect
  by_cases hv : isValidCell p.1.val p.2.val = true
  · rw [if_pos hv, if_pos hv, hchar p]
  · rw [if_neg hv, if_neg hv, hinv p hv]

theorem initState_congr (g g' : Grid α) (sol : Solution α)
    (hchar : ∀ p, (g' p).char = (g p).char)
    (hinv : ∀ p, ¬isValidCell p.1.val p.2.val = true → g' p = g p) :
    initState g' sol = initState g sol := by
  unfold initState
  rw [markCorrect_congr g g' sol hchar hinv]

theorem mulberryMix_lt (t : Nat) : mulberryMix t < U32 := by
  unfold mulberryMix
  exact Nat.mod_lt _ (by norm_num [U32])

theorem gap_not_valid {r c : Nat} (h1 : r % 2 = 1) (h2 : c % 2 = 1) :
    ¬isValidCell r c = true := by
  unfold isValidCell
  simp only [Bool.or_eq_true, beq_iff_eq]
  omega

/-- The final status of a valid cell is decided at the moment the scan visits
it: later steps never touch it again. -/
theorem updateColors_at (g : Grid α) (sol : Solution α) (p : Coord)
    (hp : p ∈ VALID_COORDS) :
    updateColors g sol p = (pass2Step (scanState g sol p) p).grid p := by
  unfold updateColors scanState
  conv_lhs => rw [sorted_split VALID_COORDS VALID_sorted p hp]
  rw [List.foldl_append, List.foldl_cons]
  apply foldl_pass2_untouched
  intro hmem
  exact rmLT_irrefl p (of_decide_eq_true (List.mem_filter.mp hmem).2)

/-- C2: a non-`CORRECT` cell reached by the scan with a positive remaining
need on either of its axes is marked `PRESENT` — the row and the column are
checked independently, so a positive column need suffices even when the
row's need was already claimed. -/
theorem C2_intersection_present_independent (g : Grid α) (sol : Solution α)
    (p : Coord) (hp : p ∈ VALID_COORDS)
    (hnc : ((scanState g sol p).grid p).status ≠ CellStatus.CORRECT)
    (hyp :
      (p.2.val % 2 = 0 ∧
        0 < (scanState g sol p).cr (colIdxOf p.2) (((scanState g sol p).grid p).char)) ∨
      (p.1.val % 2 = 0 ∧
        0 < (scanState g sol p).rr (rowIdxOf p.1) (((scanState g sol p).grid p).char))) :
    ((updateColors g sol) p).status = CellStatus.PRESENT := by
  rw [updateColors_at g sol p hp]
  have hb : (rowHitB (scanState g sol p) p || colHitB (scanState g sol p) p) = true := by
    rcases hyp with ⟨h1, h2⟩ | ⟨h1, h2⟩
    · have : colHitB (scanState g sol p) p = true := by
        unfold colHitB
        rw [decide_eq_true h1, decide_eq_true h2]
        rfl
      rw [this, Bool.or_true]
    · have : rowHitB (scanState g sol p) p = true := by
        unfold rowHitB
        rw [decide_eq_true h1, decide_eq_true h2]
        rfl
      rw [this, Bool.true_or]
  rw [pass2Step_hit _ _ hnc hb]

/-- Witness for C2 at a concrete intersection cell: in `demoGridC2` the
letters of (0,2) and (2,2) are swapped, and cell (0,2) (holding `К`, needed
by column 2 but not by row 0) comes out `PRESENT`. -/
theorem C2_witness :
    ((0, 2) : Coord) ∈ VALID_COORDS ∧
    ((updateColors demoGridC2 demoSol) ((0, 2) : Coord)).status = CellStatus.PRESENT :=
  ⟨by decide,
   C2_intersection_present_independent demoGridC2 demoSol ((0, 2) : Coord)
     (by decide) (by decide) (Or.inl ⟨by decide, by decide⟩)⟩

/-- C6: recoloring is idempotent — recoloring a freshly recolored grid
changes nothing, because recoloring depends only on the characters (and on
the untouched gap cells), both of which it preserves. -/
theorem C6_recolor_idempotent (g : Grid α) (sol : Solution α) :
    updateColors (updateColors g sol) sol = updateColors g sol := by
  have h := initState_congr g (updateColors g sol) sol (updateColors_char g sol)
    (fun p hp => updateColors_invalid g sol hp)
  show (VALID_COORDS.foldl pass2Step (initState (updateColors g sol) sol)).grid =
    updateColors g sol
  rw [h]
  rfl

/-- C9: every value produced by mulberry32 lies in `[0,1)`, for every integer
seed (negative seeds included), and the output sequence is a function of the
seed alone: generators created from equal seeds produce identical sequences. -/
theorem C9_mulberry_range_determinism : ∀ (seed s2 : Int) (n : Nat), seed = s2 →
    (0 ≤ mulberryValue seed n ∧ mulberryValue seed n < 1) ∧
    mulberryOut seed n = mulberryOut s2 n := by
  intro seed s2 n h
  refine ⟨⟨?_, ?_⟩, by rw [h]⟩
  · unfold mulberryValue
    positivity
  · unfold mulberryValue
    rw [div_lt_one (by norm_num [U32])]
    have hlt : mulberryOut seed n < U32 := by
      show (mulberryNext (mulberryState seed n)).1 < U32
      unfold mulberryNext
      exact mulberryMix_lt _
    exact_mod_cast hlt

/-- Witness for C9 at the negative seed `-7`. -/
theorem C9_witness :
    (0 ≤ mulberryValue (-7) 3 ∧ mulberryValue (-7) 3 < 1) ∧
    mulberryOut (-7) 3 = mulberryOut (-7) 3 :=
  C9_mulberry_range_determinism (-7) (-7) 3 rfl

/-- C10: recoloring preserves every cell's character, leaves every gap cell's
status untouched, and (being a pure function from the input grid) never
mutates its input — only the statuses of valid cells change. -/
theorem C10_recolor_frame (g : Grid α) (sol : Solution α) :
    (∀ p : Coord, ((updateColors g sol) p).char = (g p).char) ∧
    (∀ p : Coord, p.1.val % 2 = 1 → p.2.val % 2 = 1 →
      ((updateColors g sol) p).status = (g p).status) := by
  refine ⟨updateColors_char g sol, fun p h1 h2 => ?_⟩
  rw [updateColors_invalid g sol (gap_not_valid h1 h2)]

/-- Witness for C10 at the gap cell (1,1) of a concrete grid. -/
theorem C10_witness :
    ((updateColors demoGridC2 demoSol) ((1, 1) : Coord)).char =
      (demoGridC2 ((1, 1) : Coord)).char ∧
    ((updateColors demoGridC2 demoSol) ((1, 1) : Coord)).status =
      (demoGridC2 ((1, 1) : Coord)).status :=
  ⟨(C10_recolor_frame demoGridC2 demoSol).1 ((1, 1) : Coord),
   (C10_recolor_frame demoGridC2 demoSol).2 ((1, 1) : Coord) (by decide) (by decide)⟩

/-! ### C1: first-occurrence-in-scan-order priority for duplicate letters -/

theorem rmLT_trans {a b c : Coord} (h1 : rmLT a b) (h2 : rmLT b c) : rmLT a c := by
  unfold rmLT at *; omega

theorem valid_row_even {r c : Fin 5} (hr : r.val % 2 = 0) :
    ((r, c) : Coord) ∈ VALID_COORDS := by
  rw [mem_VALID_iff]
  unfold isValidCell
  simp [hr]

theorem markCorrect_wrong (g : Grid α) (sol : Solution α) {p : Coord}
    (hv : isValidCell p.1.val p.2.val = true) (hne : (g p).char ≠ sol p) :
    markCorrect g sol p = ⟨(g p).char, CellStatus.WRONG⟩ := by
  unfold markCorrect
  rw [if_pos hv, if_neg hne]

theorem rowNeedCount_markCorrect (g : Grid α) (sol : Solution α) (i : Fin 3) (ch : α) :
    rowNeedCount (markCorrect g sol) sol i ch = rowNeedCount g sol i ch := by
  unfold rowNeedCount
  congr 1
  apply List.filter_congr
  intro c _
  rw [markCorrect_char]

theorem colNeedCount_markCorrect (g : Grid α) (sol : Solution α) (i : Fin 3) (ch : α) :
    colNeedCount (markCorrect g sol) sol i ch = colNeedCount g sol i ch := by
  unfold colNeedCount
  congr 1
  apply List.filter_congr
  intro r _
  rw [markCorrect_char]

theorem initState_rr (g : Grid α) (sol : Solution α) (i : Fin 3) (ch : α) :
    (initState g sol).rr i ch = rowNeedCount g sol i ch :=
  rowNeedCount_markCorrect g sol i ch

theorem initState_cr (g : Grid α) (sol : Solution α) (i : Fin 3) (ch : α) :
    (initState g sol).cr i ch = colNeedCount g sol i ch :=
  colNeedCount_markCorrect g sol i ch

theorem scanState_grid_self (g : Grid α) (sol : Solution α) (p : Coord) :
    (scanState g sol p).grid p = markCorrect g sol p := by
  unfold scanState
  rw [foldl_pass2_untouched]
  · rfl
  · intro hmem
    exact rmLT_irrefl p (of_decide_eq_true (List.mem_filter.mp hmem).2)

theorem scanState_char (g : Grid α) (sol : Solution α) (p q : Coord) :
    ((scanState g sol p).grid q).char = (g q).char := by
  unfold scanState
  rw [foldl_pass2_char]
  exact markCorrect_char g sol q

/-- In the scenario of C1 (row `r` even, the only occurrences of `X` in row
`r` at columns `c1` and `c2`), no coordinate other than `(r,c1)` and `(r,c2)`
can satisfy the row-decrement condition for `(rowIdxOf r, X)`. -/
theorem rowfree_aux {g : Grid α} {r c1 c2 : Fin 5} {X : α}
    (hr : r.val % 2 = 0)
    (hocc : ∀ c : Fin 5, (g (r, c)).char = X ↔ (c = c1 ∨ c = c2))
    (q : Coord) (hno1 : q = (r, c1) → False) (hno2 : q = (r, c2) → False) :
    ¬(q.1.val % 2 = 0 ∧ rowIdxOf q.1 = rowIdxOf r ∧ (g q).char = X) := by
  rintro ⟨hqe, hqi, hqc⟩
  have hdiv : q.1.val / 2 = r.val / 2 := congrArg Fin.val hqi
  have hq1 : q.1 = r := Fin.ext (by omega)
  have hq' : q = (r, q.2) := by
    rw [← hq1]
  rcases (hocc q.2).mp (by rw [← hq']; exact hqc) with h | h
  · exact hno1 (by rw [hq', h])
  · exact hno2 (by rw [hq', h])

/-- C1: when a horizontal word needs exactly one occurrence of `X`, the
candidate row shows `X` exactly at columns `c1 < c2`, both mismatched, and
neither column's word needs `X`, recoloring marks the first occurrence
`PRESENT` and the second `WRONG`. -/
theorem C1_duplicate_first_scan_priority
    (g : Grid α) (sol : Solution α) (r c1 c2 : Fin 5) (X : α)
    (hr : r.val % 2 = 0) (hc : c1.val < c2.val)
    (hocc : ∀ c : Fin 5, (g (r, c)).char = X ↔ (c = c1 ∨ c = c2))
    (hn1 : sol (r, c1) ≠ X) (hn2 : sol (r, c2) ≠ X)
    (hneed : rowNeedCount g sol (rowIdxOf r) X = 1)
    (hcol1 : c1.val % 2 = 0 → colNeedCount g sol (colIdxOf c1) X = 0)
    (hcol2 : c2.val % 2 = 0 → colNeedCount g sol (colIdxOf c2) X = 0) :
    ((updateColors g sol) (r, c1)).status = CellStatus.PRESENT ∧
    ((updateColors g sol) (r, c2)).status = CellStatus.WRONG := by
  have hchar1 : (g (r, c1)).char = X := (hocc c1).mpr (Or.inl rfl)
  have hchar2 : (g (r, c2)).char = X := (hocc c2).mpr (Or.inr rfl)
  have hv1 : ((r, c1) : Coord) ∈ VALID_COORDS := valid_row_even hr
  have hv2 : ((r, c2) : Coord) ∈ VALID_COORDS := valid_row_even hr
  have hp1p2 : rmLT (r, c1) (r, c2) := Or.inr ⟨rfl, hc⟩
  have hval1 : isValidCell r.val c1.val = true := (mem_VALID_iff _).mp hv1
  have hval2 : isValidCell r.val c2.val = true := (mem_VALID_iff _).mp hv2
  have hne1 : (g (r, c1)).char ≠ sol (r, c1) := by
    rw [hchar1]; exact Ne.symm hn1
  have hne2 : (g (r, c2)).char ≠ sol (r, c2) := by
    rw [hchar2]; exact Ne.symm hn2
  have hmc1 : markCorrect g sol (r, c1) = ⟨X, CellStatus.WRONG⟩ := by
    rw [markCorrect_wrong g sol hval1 hne1, hchar1]
  have hmc2 : markCorrect g sol (r, c2) = ⟨X, CellStatus.WRONG⟩ := by
    rw [markCorrect_wrong g sol hval2 hne2, hchar2]
  have hst1grid : (scanState g sol (r, c1)).grid (r, c1) = ⟨X, CellStatus.WRONG⟩ := by
    rw [scanState_grid_self, hmc1]
  have hstat1 : ((scanState g sol (r, c1)).grid (r, c1)).status ≠ CellStatus.CORRECT := by
    rw [hst1grid]
    simp
  -- the row need for X is still untouched when the scan reaches (r, c1)
  have hst1rr : (scanState g sol (r, c1)).rr (rowIdxOf r) X = 1 := by
    unfold scanState
    rw [foldl_pass2_rr_frozen _ _ _ _ ?free, initState_rr, hneed]
    case free =>
      intro q hq
      have hcq : ((initState g sol).grid q).char = (g q).char := markCorrect_char g sol q
      rw [hcq]
      obtain ⟨hqV, hqlt⟩ := List.mem_filter.mp hq
      apply rowfree_aux hr hocc q
      · intro he
        rw [he] at hqlt
        exact rmLT_irrefl _ (of_decide_eq_true hqlt)
      · intro he
        rw [he] at hqlt
        have h21 : rmLT (r, c2) (r, c1) := of_decide_eq_true hqlt
        unfold rmLT at h21
        dsimp only at h21
        omega
  have hrowhit1 : rowHitB (scanState g sol (r, c1)) (r, c1) = true := by
    unfold rowHitB
    rw [hst1grid]
    dsimp only
    rw [hst1rr, decide_eq_true hr]
    rfl
  have hA : ((updateColors g sol) (r, c1)).status = CellStatus.PRESENT := by
    rw [updateColors_at g sol (r, c1) hv1,
      pass2Step_hit _ _ hstat1 (by rw [hrowhit1]; rfl)]
  -- split the scan prefix of (r, c2) at (r, c1)
  have hL2sorted :
      (VALID_COORDS.filter fun q => decide (rmLT q (r, c2))).Pairwise rmLT :=
    VALID_sorted.filter _
  have hp1mem : ((r, c1) : Coord) ∈
      VALID_COORDS.filter fun q => decide (rmLT q (r, c2)) :=
    List.mem_filter.mpr ⟨hv1, decide_eq_true hp1p2⟩
  have hsplit := sorted_split _ hL2sorted _ hp1mem
  have hA1 : ((VALID_COORDS.filter fun q => decide (rmLT q (r, c2))).filter
        fun q => decide (rmLT q (r, c1))) =
      VALID_COORDS.filter fun q => decide (rmLT q (r, c1)) := by
    rw [List.filter_filter]
    apply List.filter_congr
    intro q _
    by_cases h : rmLT q (r, c1)
    · rw [decide_eq_true h, decide_eq_true (rmLT_trans h hp1p2)]
      rfl
    · rw [decide_eq_false h]
      simp
  have hscan2 : scanState g sol (r, c2) =
      ((VALID_COORDS.filter fun q => decide (rmLT q (r, c2))).filter
          fun q => decide (rmLT ((r, c1) : Coord) q)).foldl pass2Step
        (pass2Step (scanState g sol (r, c1)) (r, c1)) := by
    unfold scanState
    conv_lhs => rw [hsplit, hA1]
    rw [List.foldl_append, List.foldl_cons]
  have hrr2 : (scanState g sol (r, c2)).rr (rowIdxOf r) X = 0 := by
    rw [hscan2, foldl_pass2_rr_frozen _ _ _ _ ?free]
    case free =>
      intro q hq
      have hcq : ((pass2Step (scanState g sol (r, c1)) (r, c1)).grid q).char =
          (g q).char := by
        rw [pass2Step_char, scanState_char]
      rw [hcq]
      obtain ⟨hqL2, hqgt⟩ := List.mem_filter.mp hq
      obtain ⟨hqV, hqlt2⟩ := List.mem_filter.mp hqL2
      apply rowfree_aux hr hocc q
      · intro he
        rw [he] at hqgt
        exact rmLT_irrefl _ (of_decide_eq_true hqgt)
      · intro he
        rw [he] at hqlt2
        exact rmLT_irrefl _ (of_decide_eq_true hqlt2)
    have hdec := pass2Step_rr_dec (scanState g sol (r, c1)) (r, c1) hstat1 hrowhit1
    rw [hst1grid] at hdec
    dsimp only at hdec
    rw [hdec, hst1rr]
  have hst2grid : (scanState g sol (r, c2)).grid (r, c2) = ⟨X, CellStatus.WRONG⟩ := by
    rw [scanState_grid_self, hmc2]
  have hrow2 : rowHitB (scanState g sol (r, c2)) (r, c2) = false := by
    unfold rowHitB
    rw [hst2grid]
    dsimp only
    rw [hrr2]
    simp
  have hcolhit2 : colHitB (scanState g sol (r, c2)) (r, c2) = false := by
    unfold colHitB
    by_cases he : c2.val % 2 = 0
    · rw [hst2grid]
      dsimp only
      have hle : (scanState g sol (r, c2)).cr (colIdxOf c2) X ≤
          (initState g sol).cr (colIdxOf c2) X := by
        unfold scanState
        exact foldl_pass2_cr_le _ _ _ _
      rw [initState_cr, hcol2 he] at hle
      rw [Nat.le_zero.mp hle]
      simp
    · have : decide (((r, c2) : Coord).2.val % 2 = 0) = false := decide_eq_false he
      rw [this]
      simp
  have hB : ((updateColors g sol) (r, c2)).status = CellStatus.WRONG := by
    rw [updateColors_at g sol (r, c2) hv2, pass2Step_miss _ _ hrow2 hcolhit2,
      hst2grid]
  exact ⟨hA, hB⟩

/-- Witness for C1: the spec's concrete scenario — solution row 0 is
`[А,Б,В,Г,Д]`, candidate row 0 is `[Х,А,А,Г,Д]`, column 2 holds no `А` —
yields statuses `[WRONG, PRESENT, WRONG, CORRECT, CORRECT]` in row 0. -/
theorem C1_witness :
    ((updateColors demoGridC1 demoSol) ((0, 1) : Coord)).status = CellStatus.PRESENT ∧
    ((updateColors demoGridC1 demoSol) ((0, 2) : Coord)).status = CellStatus.WRONG ∧
    ((updateColors demoGridC1 demoSol) ((0, 0) : Coord)).status = CellStatus.WRONG ∧
    ((updateColors demoGridC1 demoSol) ((0, 3) : Coord)).status = CellStatus.CORRECT ∧
    ((updateColors demoGridC1 demoSol) ((0, 4) : Coord)).status = CellStatus.CORRECT := by
  have h := C1_duplicate_first_scan_priority demoGridC1 demoSol 0 1 2 'А'
    (by decide) (by decide) (by decide) (by decide) (by decide) (by decide)
    (by decide) (by decide)
  exact ⟨h.1, h.2, by decide, by decide, by decide⟩

/-! ### C5: every stage of the scramble conserves the letter multiset -/

theorem cons_set_perm : ∀ (t : List α) (k : Nat) (h : k < t.length) (x : α),
    (t.get ⟨k, h⟩ :: t.set k x).Perm (x :: t) := by
  intro t
  induction t with
  | nil => intro k h; cases h
  | cons a t ih =>
    intro k h x
    cases k with
    | zero => exact List.Perm.swap x a t
    | succ k =>
      have hk : k < t.length := Nat.lt_of_succ_lt_succ h
      show (t.get ⟨k, hk⟩ :: a :: t.set k x).Perm (x :: a :: t)
      exact (List.Perm.swap a _ _).trans (((ih k hk x).cons a).trans
        (List.Perm.swap x a t))

theorem swapList_perm : ∀ (xs : List α) (i j : Nat), i < xs.length →
    j < xs.length → (swapList xs i j).Perm xs := by
  intro xs
  induction xs with
  | nil => intro i j hi _; exact absurd hi (Nat.not_lt_zero i)
  | cons a t ih =>
    intro i j hi hj
    cases i with
    | zero =>
      cases j with
      | zero =>
        show ((((a :: t).set 0 a).set 0 a : List α)).Perm (a :: t)
        rw [List.set_cons_zero, List.set_cons_zero]
      | succ m =>
        have hm : m < t.length := Nat.lt_of_succ_lt_succ hj
        show ((((a :: t).set 0 (t.getD m default)).set (m + 1) a : List α)).Perm (a :: t)
        rw [List.set_cons_zero, List.set_cons_succ, List.getD_eq_getElem t default hm]
        exact cons_set_perm t m hm a
    | succ k =>
      cases j with
      | zero =>
        have hk : k < t.length := Nat.lt_of_succ_lt_succ hi
        show ((((a :: t).set (k + 1) a).set 0 (t.getD k default) : List α)).Perm (a :: t)
        rw [List.set_cons_succ, List.set_cons_zero, List.getD_eq_getElem t default hk]
        exact cons_set_perm t k hk a
      | succ m =>
        have hk : k < t.length := Nat.lt_of_succ_lt_succ hi
        have hm : m < t.length := Nat.lt_of_succ_lt_succ hj
        show ((((a :: t).set (k + 1) (t.getD m default)).set (m + 1)
          (t.getD k default) : List α)).Perm (a :: t)
        rw [List.set_cons_succ, List.set_cons_succ]
        exact (ih k m hk hm).cons a

theorem fisherYates_perm : ∀ (k : Nat) (st : Int) (xs : List α), k < xs.length →
    (fisherYates st xs k).Perm xs := by
  intro k
  induction k with
  | zero => intro st xs _; exact List.Perm.refl xs
  | succ k ih =>
    intro st xs hk
    have hout : (mulberryNext st).1 < U32 := mulberryMix_lt _
    have hj : (mulberryNext st).1 * (k + 2) / U32 < xs.length := by
      have h1 : (mulberryNext st).1 * (k + 2) < U32 * (k + 2) :=
        mul_lt_mul_of_pos_right hout (by omega)
      have h2 : (mulberryNext st).1 * (k + 2) / U32 < k + 2 :=
        Nat.div_lt_of_lt_mul h1
      omega
    have hperm := swapList_perm xs (k + 1) ((mulberryNext st).1 * (k + 2) / U32) hk hj
    have hlen := hperm.length_eq
    exact (ih (mulberryNext st).2 _ (by omega)).trans hperm

theorem seededShuffle_perm (l : List α) (seed : Int) :
    (seededShuffle l seed).Perm l := by
  unfold seededShuffle
  cases l with
  | nil => exact List.Perm.refl _
  | cons a t =>
    apply fisherYates_perm
    simp

theorem rejectionSearch_perm : ∀ (fuel attempt : Nat) (letters orig : List α)
    (seed : Int) (sh : List α),
    rejectionSearch letters orig seed attempt fuel = some sh → sh.Perm letters := by
  intro fuel
  induction fuel with
  | zero => intro attempt letters orig seed sh h; cases h
  | succ rem ih =>
    intro attempt letters orig seed sh h
    unfold rejectionSearch at h
    split at h
    · cases h
      exact seededShuffle_perm letters _
    · exact ih (attempt + 1) letters orig seed sh h

theorem repairStep_perm (orig res : List α) (i : Nat) (hi : i < res.length) :
    (repairStep orig res i).Perm res := by
  unfold repairStep
  split
  · split
    case _ j hj =>
      have hjmem := List.mem_of_find?_eq_some hj
      have hjlt : j < res.length := by
        have := List.mem_range'.mp hjmem
        omega
      exact swapList_perm res i j hi hjlt
    case _ hnone =>
      split
      case _ j hj =>
        have hjmem := List.mem_of_find?_eq_some hj
        have hjlt : j < res.length := by
          have := List.mem_range'.mp hjmem
          omega
        exact swapList_perm res i j hi hjlt
      case _ => exact List.Perm.refl res
  · exact List.Perm.refl res

theorem foldl_repair_perm : ∀ (is : List Nat) (orig res : List α),
    (∀ i ∈ is, i < res.length) → (is.foldl (repairStep orig) res).Perm res := by
  intro is
  induction is with
  | nil => intro orig res _; exact List.Perm.refl res
  | cons i t ih =>
    intro orig res hb
    rw [List.foldl_cons]
    have h1 : (repairStep orig res i).Perm res :=
      repairStep_perm orig res i (hb i (List.mem_cons_self i t))
    have hlen := h1.length_eq
    have h2 := ih orig (repairStep orig res i) fun j hj => by
      rw [hlen]
      exact hb j (List.mem_cons_of_mem i hj)
    exact h2.trans h1

theorem generateDerangement_perm (letters orig : List α) (seed : Int) :
    (generateDerangement letters orig seed).Perm letters := by
  unfold generateDerangement
  split
  · exact List.Perm.refl letters
  · cases hres : rejectionSearch letters orig seed 0 100 with
    | some sh => exact rejectionSearch_perm 100 0 letters orig seed sh hres
    | none =>
      have hsh := seededShuffle_perm letters (seed + 999)
      refine (foldl_repair_perm _ orig _ fun i hi => ?_).trans hsh
      exact List.mem_range.mp hi

/-- The multiset of letters assigned by the grid-building walk: the greens'
solution letters plus the supplied (deranged) letters, provided exactly as
many letters are supplied as there are non-green coordinates. -/
theorem fillChars_snd_multiset (greens : List Coord) (sol : Solution α) :
    ∀ (coords : List Coord) (letters : List α),
    letters.length = (coords.filter fun p => decide (p ∉ greens)).length →
    (((fillChars greens sol coords letters).map Prod.snd : List α) : Multiset α) =
    (((coords.filter fun p => decide (p ∈ greens)).map sol : List α) : Multiset α) +
      (letters : Multiset α) := by
  intro coords
  induction coords with
  | nil =>
    intro letters hlen
    have : letters = [] := List.length_eq_zero.mp hlen
    subst this
    rfl
  | cons p rest ih =>
    intro letters hlen
    by_cases hg : p ∈ greens
    · have hfc : fillChars greens sol (p :: rest) letters =
          (p, sol p) :: fillChars greens sol rest letters := by
        rw [fillChars, if_pos hg]
      have hfg : ((p :: rest).filter fun q => decide (q ∈ greens)) =
          p :: (rest.filter fun q => decide (q ∈ greens)) := by
        rw [List.filter_cons, if_pos (by simpa using hg)]
      have hfn : ((p :: rest).filter fun q => decide (q ∉ greens)) =
          rest.filter fun q => decide (q ∉ greens) := by
        rw [List.filter_cons, if_neg (by simpa using hg)]
      rw [hfc, hfg]
      rw [hfn] at hlen
      simp only [List.map_cons, ← Multiset.cons_coe]
      rw [ih letters hlen, Multiset.cons_add]
    · have hfc : fillChars greens sol (p :: rest) letters =
          (p, letters.headD default) :: fillChars greens sol rest letters.tail := by
        rw [fillChars, if_neg hg]
      have hfg : ((p :: rest).filter fun q => decide (q ∈ greens)) =
          rest.filter fun q => decide (q ∈ greens) := by
        rw [List.filter_cons, if_neg (by simpa using hg)]
      have hfn : ((p :: rest).filter fun q => decide (q ∉ greens)) =
          p :: (rest.filter fun q => decide (q ∉ greens)) := by
        rw [List.filter_cons, if_pos (by simpa using hg)]
      rw [hfn] at hlen
      cases letters with
      | nil => simp at hlen
      | cons l ls =>
        have hlen' : ls.length = (rest.filter fun q => decide (q ∉ greens)).length := by
          simpa using hlen
        rw [hfc, hfg]
        simp only [List.headD_cons, List.tail_cons, List.map_cons, ← Multiset.cons_coe]
        rw [ih ls hlen', Multiset.add_cons]

/-- Reading the walk's assignments back through the association list, over
the walked (duplicate-free) coordinates, yields exactly the assigned
letters. -/
theorem assoc_fillChars_map (greens : List Coord) (sol : Solution α) :
    ∀ (coords : List Coord) (letters : List α), coords.Nodup →
    (coords.map fun p =>
      (assoc (fillChars greens sol coords letters) p).getD default) =
    (fillChars greens sol coords letters).map Prod.snd := by
  intro coords
  induction coords with
  | nil => intro letters _; rfl
  | cons p rest ih =>
    intro letters hnd
    have hp : p ∉ rest := (List.nodup_cons.mp hnd).1
    have hnd' : rest.Nodup := (List.nodup_cons.mp hnd).2
    by_cases hg : p ∈ greens
    · rw [show fillChars greens sol (p :: rest) letters =
          (p, sol p) :: fillChars greens sol rest letters by
            rw [fillChars, if_pos hg]]
      rw [List.map_cons, List.map_cons]
      congr 1
      · rw [assoc, if_pos rfl]
        rfl
      · rw [← ih letters hnd']
        apply List.map_congr_left
        intro q hq
        rw [assoc, if_neg fun h => hp (by rw [← h]; exact hq)]
    · rw [show fillChars greens sol (p :: rest) letters =
          (p, letters.headD default) :: fillChars greens sol rest letters.tail by
            rw [fillChars, if_neg hg]]
      rw [List.map_cons, List.map_cons]
      congr 1
      · rw [assoc, if_pos rfl]
        rfl
      · rw [← ih letters.tail hnd']
        apply List.map_congr_left
        intro q hq
        rw [assoc, if_neg fun h => hp (by rw [← h]; exact hq)]

/-- C5: the multiset of letters over the 21 valid cells of the scrambled
initial grid equals the multiset of letters over the solution's valid
positions — green selection, derangement, the repair fallback and recoloring
neither add, lose nor duplicate letters. -/
theorem C5_letter_conservation (sol : Solution α) (seed : Int) :
    (((VALID_COORDS.map fun p => ((generateInitialState sol seed) p).char) :
        List α) : Multiset α) =
    ((VALID_COORDS.map sol : List α) : Multiset α) := by
  have h1 : (VALID_COORDS.map fun p => ((generateInitialState sol seed) p).char) =
      VALID_COORDS.map fun p => ((preGridOf sol seed) p).char :=
    List.map_congr_left fun p _ => updateColors_char _ sol p
  have h2 : (VALID_COORDS.map fun p => ((preGridOf sol seed) p).char) =
      VALID_COORDS.map fun p =>
        (assoc (fillChars (greensOf seed) sol VALID_COORDS (derangedOf sol seed))
          p).getD default := by
    apply List.map_congr_left
    intro p hp
    unfold preGridOf
    rw [if_pos ((mem_VALID_iff p).mp hp)]
  have h3 := assoc_fillChars_map (greensOf seed) sol VALID_COORDS
    (derangedOf sol seed) VALID_nodup
  have hperm : (derangedOf sol seed).Perm (nonGreenLettersOf sol seed) :=
    generateDerangement_perm _ _ _
  have hlen : (derangedOf sol seed).length =
      (VALID_COORDS.filter fun p => decide (p ∉ greensOf seed)).length := by
    rw [hperm.length_eq]
    unfold nonGreenLettersOf
    rw [List.length_map]
  have h4 := fillChars_snd_multiset (greensOf seed) sol VALID_COORDS
    (derangedOf sol seed) hlen
  rw [h1, h2, h3, h4]
  rw [Multiset.coe_eq_coe.mpr hperm]
  unfold nonGreenLettersOf
  rw [Multiset.coe_add, ← List.map_append]
  rw [Multiset.coe_eq_coe]
  apply List.Perm.map sol
  have hpred : (fun p : Coord => decide (p ∉ greensOf seed)) =
      fun p => !decide (p ∈ greensOf seed) := by
    funext p
    exact decide_not
  rw [hpred]
  exact List.filter_append_perm _ VALID_COORDS

/-! ### C3 and C4: the degenerate all-equal solution defeats the
derangement and the green-count bound -/

theorem length_filter_not_add (l : List β) (f : β → Bool) :
    (l.filter f).length + (l.filter fun b => !f b).length = l.length := by
  induction l with
  | nil => rfl
  | cons a t ih =>
    rw [List.filter_cons, List.filter_cons]
    by_cases h : f a = true
    · rw [if_pos h, if_neg (by rw [h]; simp)]
      simp only [List.length_cons]
      omega
    · rw [if_neg h, if_pos (by rw [Bool.not_eq_true] at h; rw [h]; rfl)]
      simp only [List.length_cons]
      omega

theorem solA_valid {p : Coord} (hp : p ∈ VALID_COORDS) : solA p = 'А' := by
  unfold solA
  rw [if_pos ((mem_VALID_iff p).mp hp)]

theorem nonGreenA_replicate (seed : Int) :
    nonGreenLettersOf solA seed =
      List.replicate (nonGreenLettersOf solA seed).length 'А' := by
  rw [List.eq_replicate_length]
  intro b hb
  obtain ⟨q, hq, rfl⟩ := List.mem_map.mp hb
  exact solA_valid (List.mem_filter.mp hq).1

theorem derangedA_replicate (seed : Int) :
    derangedOf solA seed =
      List.replicate (nonGreenLettersOf solA seed).length 'А' := by
  have hperm : (derangedOf solA seed).Perm (nonGreenLettersOf solA seed) :=
    generateDerangement_perm _ _ _
  rw [nonGreenA_replicate seed] at hperm
  exact List.perm_replicate.mp hperm

/-- On the all-`А` solution every assigned character is `А`, so every valid
cell of the scrambled grid already matches the solution. -/
theorem genA_char (seed : Int) :
    ∀ p ∈ VALID_COORDS, ((generateInitialState solA seed) p).char = solA p := by
  have hlen : (derangedOf solA seed).length =
      (VALID_COORDS.filter fun p => decide (p ∉ greensOf seed)).length := by
    have hperm0 : (derangedOf solA seed).Perm (nonGreenLettersOf solA seed) :=
      generateDerangement_perm _ _ _
    rw [hperm0.length_eq]
    unfold nonGreenLettersOf
    rw [List.length_map]
  have hAll : ∀ x ∈ (fillChars (greensOf seed) solA VALID_COORDS
      (derangedOf solA seed)).map Prod.snd, x = 'А' := by
    intro x hx
    have hx' : x ∈ ((((fillChars (greensOf seed) solA VALID_COORDS
        (derangedOf solA seed)).map Prod.snd : List Char)) : Multiset Char) :=
      Multiset.mem_coe.mpr hx
    rw [fillChars_snd_multiset (greensOf seed) solA VALID_COORDS
      (derangedOf solA seed) hlen] at hx'
    rcases Multiset.mem_add.mp hx' with h | h
    · obtain ⟨q, hq, rfl⟩ := List.mem_map.mp (Multiset.mem_coe.mp h)
      exact solA_valid (List.mem_filter.mp hq).1
    · have hmem := Multiset.mem_coe.mp h
      rw [derangedA_replicate seed] at hmem
      exact List.eq_of_mem_replicate hmem
  intro p hp
  have h2 : ((preGridOf solA seed) p).char =
      (assoc (fillChars (greensOf seed) solA VALID_COORDS (derangedOf solA seed))
        p).getD default := by
    unfold preGridOf
    rw [if_pos ((mem_VALID_iff p).mp hp)]
  have hmem : (assoc (fillChars (greensOf seed) solA VALID_COORDS
        (derangedOf solA seed)) p).getD default ∈
      VALID_COORDS.map fun q =>
        (assoc (fillChars (greensOf seed) solA VALID_COORDS (derangedOf solA seed))
          q).getD default :=
    List.mem_map_of_mem _ hp
  rw [assoc_fillChars_map (greensOf seed) solA VALID_COORDS (derangedOf solA seed)
    VALID_nodup] at hmem
  show ((updateColors (preGridOf solA seed) solA) p).char = solA p
  rw [updateColors_char, h2, hAll _ hmem, solA_valid hp]

theorem numGreensOf_le (seed : Int) : numGreensOf seed ≤ 8 := by
  unfold numGreensOf
  split
  · omega
  · split
    · omega
    · omega

theorem nonGreenA_large (seed : Int) : 13 ≤ (nonGreenLettersOf solA seed).length := by
  have hsplit := length_filter_not_add VALID_COORDS fun p => decide (p ∈ greensOf seed)
  have hpred : (fun p : Coord => decide (p ∉ greensOf seed)) =
      fun p => !decide (p ∈ greensOf seed) := by
    funext p
    exact decide_not
  have hle : ((VALID_COORDS.filter fun p => decide (p ∈ greensOf seed)).length ≤
      (greensOf seed).length) := by
    refine (List.subperm_of_subset (VALID_nodup.filter _) fun x hx => ?_).length_le
    exact of_decide_eq_true (List.mem_filter.mp hx).2
  have hg : (greensOf seed).length ≤ 8 := by
    unfold greensOf
    exact le_trans (List.length_take_le _ _) (numGreensOf_le seed)
  have hv : VALID_COORDS.length = 21 := by decide
  unfold nonGreenLettersOf
  rw [List.length_map, hpred]
  omega

/-- C3 fails on the code: for the all-`А` solution (a letter class of size
15, not 1) every valid cell of the generated grid — in particular every
non-green one — carries the solution's letter, for every seed. -/
theorem C3_derangement_bug (seed : Int) :
    (∀ p ∈ VALID_COORDS, ((generateInitialState solA seed) p).char = solA p) ∧
    2 ≤ (nonGreenLettersOf solA seed).length :=
  ⟨genA_char seed, le_trans (by omega) (nonGreenA_large seed)⟩

/-- Witness for C3's failing evaluation at seed 1 and cell (0,0). -/
theorem C3_witness :
    ((0, 0) : Coord) ∈ VALID_COORDS ∧
    ((generateInitialState solA 1) ((0, 0) : Coord)).char = solA ((0, 0) : Coord) :=
  ⟨by decide, (C3_derangement_bug 1).1 ((0, 0) : Coord) (by decide)⟩

/-- C4 fails on the code: for the all-`А` solution the number of matching
valid cells is 21 for every seed — outside the configured 6–8 range, and the
initial grid is fully solved. -/
theorem C4_green_range_bug (seed : Int) :
    matchCount (generateInitialState solA seed) solA = 21 := by
  unfold matchCount
  rw [List.filter_eq_self.mpr fun p hp => decide_eq_true (genA_char seed p hp)]
  decide

/-! ### C8: the search is capped and the daily puzzle always falls back -/

theorem loopV3_att (seed : Int) (words : List Wd) (h1 v1 v2 : Wd) :
    ∀ (v3s ex : List Wd) (att : Nat), att ≤ MAX_ATTEMPTS →
    (loopV3 seed words h1 v1 v2 v3s ex att).2 ≤ MAX_ATTEMPTS + 1 := by
  intro v3s
  induction v3s with
  | nil => intro ex att h; exact Nat.le_succ_of_le h
  | cons v3 rest ih =>
    intro ex att h
    rw [loopV3]
    split
    · exact ih ex att h
    · split
      · split
        · exact Nat.le_succ_of_le h
        · split
          · omega
          · exact ih ex (att + 1) (by omega)
      · split
        · omega
        · exact ih ex (att + 1) (by omega)

theorem loopV2_att (seed : Int) (words : List Wd) (h1 v1 : Wd) :
    ∀ (v2s ex : List Wd) (att : Nat), att ≤ MAX_ATTEMPTS →
    (loopV2 seed words h1 v1 v2s ex att).2 ≤ MAX_ATTEMPTS + 1 := by
  intro v2s
  induction v2s with
  | nil => intro ex att h; exact Nat.le_succ_of_le h
  | cons v2 rest ih =>
    intro ex att h
    rw [loopV2]
    split
    · exact ih ex att h
    · split
      case _ p att' heq =>
        have := loopV3_att seed words h1 v1 v2
          (wordsByStart words (h1.getD 4 ' ')) (v2 :: ex) att h
        rw [heq] at this
        exact this
      case _ att' heq =>
        have hbound := loopV3_att seed words h1 v1 v2
          (wordsByStart words (h1.getD 4 ' ')) (v2 :: ex) att h
        rw [heq] at hbound
        split
        · exact hbound
        · exact ih ex att' (by omega)

theorem loopV1_att (seed : Int) (words : List Wd) (h1 : Wd) :
    ∀ (v1s ex : List Wd) (att : Nat), att ≤ MAX_ATTEMPTS →
    (loopV1 seed words h1 v1s ex att).2 ≤ MAX_ATTEMPTS + 1 := by
  intro v1s
  induction v1s with
  | nil => intro ex att h; exact Nat.le_succ_of_le h
  | cons v1 rest ih =>
    intro ex att h
    rw [loopV1]
    split
    · exact ih ex att h
    · split
      case _ p att' heq =>
        have := loopV2_att seed words h1 v1
          (wordsByStart words (h1.getD 2 ' ')) (v1 :: ex) att h
        rw [heq] at this
        exact this
      case _ att' heq =>
        have hbound := loopV2_att seed words h1 v1
          (wordsByStart words (h1.getD 2 ' ')) (v1 :: ex) att h
        rw [heq] at hbound
        split
        · exact hbound
        · exact ih ex att' (by omega)

theorem loopH1_att (seed : Int) (words : List Wd) :
    ∀ (h1s : List Wd) (att : Nat), att ≤ MAX_ATTEMPTS →
    (loopH1 seed words h1s att).2 ≤ MAX_ATTEMPTS + 1 := by
  intro h1s
  induction h1s with
  | nil => intro att h; exact Nat.le_succ_of_le h
  | cons h1 rest ih =>
    intro att h
    rw [loopH1]
    split
    case _ p att' heq =>
      have := loopV1_att seed words h1
        (wordsByStart words (h1.getD 0 ' ')) [h1] att h
      rw [heq] at this
      exact this
    case _ att' heq =>
      have hbound := loopV1_att seed words h1
        (wordsByStart words (h1.getD 0 ' ')) [h1] att h
      rw [heq] at hbound
      split
      · exact hbound
      · exact ih att' (by omega)

/-- C8: the search's attempts counter never exceeds the fixed cap (plus the
final increment that triggers the break), so generation always terminates,
and `getDailyPuzzle` never fails: it returns the generated puzzle when there
is one and the precomputed fallback solution (under the current seed)
otherwise. -/
theorem C8_bounded_search_fallback (wordList : List Wd) (seed : Int) :
    (generatePuzzleAux wordList seed).2 ≤ MAX_ATTEMPTS + 1 ∧
    (generatePuzzle wordList seed = none →
      getDailyPuzzle wordList seed = ⟨seed, FALLBACK_SOLUTION⟩) ∧
    (∀ p : DailyPuzzle, generatePuzzle wordList seed = some p →
      getDailyPuzzle wordList seed = p) := by
  refine ⟨?_, fun h => ?_, fun p h => ?_⟩
  · unfold generatePuzzleAux
    exact loopH1_att seed _ _ 0 (by norm_num [MAX_ATTEMPTS])
  · unfold getDailyPuzzle
    rw [h]
  · unfold getDailyPuzzle
    rw [h]

/-- Witness for C8: on the empty word list generation finds nothing and the
fallback solution is served. -/
theorem C8_witness :
    (generatePuzzleAux [] 2).2 ≤ MAX_ATTEMPTS + 1 ∧
    getDailyPuzzle [] 2 = ⟨2, FALLBACK_SOLUTION⟩ :=
  ⟨(C8_bounded_search_fallback [] 2).1,
   (C8_bounded_search_fallback [] 2).2.1 (by decide)⟩

/-! ### C7: a found puzzle is six distinct intersecting words of the list -/

theorem findMatch_spec {words : List Wd} {c0 c2 c4 : Char} {ex : List Wd} {w : Wd}
    (h : findMatch words c0 c2 c4 ex = some w) :
    w ∈ words ∧ w.getD 0 ' ' = c0 ∧ w.getD 2 ' ' = c2 ∧ w.getD 4 ' ' = c4 ∧
    w ∉ ex := by
  unfold findMatch at h
  have hmem := List.mem_of_find?_eq_some h
  have hpred := List.find?_some h
  unfold wordsByStart at hmem
  obtain ⟨hw, hw0⟩ := List.mem_filter.mp hmem
  obtain ⟨h24, hex⟩ := Bool.and_eq_true _ _ |>.mp hpred
  obtain ⟨h2, h4⟩ := Bool.and_eq_true _ _ |>.mp h24
  exact ⟨hw, eq_of_beq hw0, of_decide_eq_true h2, of_decide_eq_true h4,
    of_decide_eq_true hex⟩

theorem wordsByStart_spec {words : List Wd} {c : Char} {w : Wd}
    (h : w ∈ wordsByStart words c) : w ∈ words ∧ w.getD 0 ' ' = c := by
  unfold wordsByStart at h
  obtain ⟨hw, hw0⟩ := List.mem_filter.mp h
  exact ⟨hw, eq_of_beq hw0⟩

theorem eq_of_len5 (w : Wd) (h : w.length = 5) :
    w = [w.getD 0 ' ', w.getD 1 ' ', w.getD 2 ' ', w.getD 3 ' ', w.getD 4 ' '] := by
  rcases w with _ | ⟨a, _ | ⟨b, _ | ⟨c, _ | ⟨d, _ | ⟨e, tail⟩⟩⟩⟩⟩ <;>
    simp only [List.length_cons, List.length_nil] at h
  · omega
  · omega
  · omega
  · omega
  · omega
  · have htail : tail = [] := List.length_eq_zero.mp (by omega)
    subst htail
    rfl

theorem loopV3_found (seed : Int) (words : List Wd) (h1 v1 v2 : Wd) :
    ∀ (v3s ex : List Wd) (att : Nat) (p : DailyPuzzle) (att' : Nat),
    loopV3 seed words h1 v1 v2 v3s ex att = (some p, att') →
    ∃ v3 h2 h3 : Wd, v3 ∈ v3s ∧ v3 ∉ ex ∧
      findMatch words (v1.getD 2 ' ') (v2.getD 2 ' ') (v3.getD 2 ' ')
        (v3 :: ex) = some h2 ∧
      findMatch words (v1.getD 4 ' ') (v2.getD 4 ' ') (v3.getD 4 ' ')
        (h2 :: v3 :: ex) = some h3 ∧
      p = ⟨seed, buildGrid h1 h2 h3 v1 v2 v3⟩ := by
  intro v3s
  induction v3s with
  | nil =>
    intro ex att p att' h
    rw [loopV3] at h
    simp at h
  | cons v3 rest ih =>
    intro ex att p att' h
    rw [loopV3] at h
    split at h
    case isTrue hmem =>
      obtain ⟨v3', h2', h3', hm, hnm, hf1, hf2, hp⟩ := ih ex att p att' h
      exact ⟨v3', h2', h3', List.mem_cons_of_mem _ hm, hnm, hf1, hf2, hp⟩
    case isFalse hmem =>
      split at h
      next h2 heq2 =>
        split at h
        next h3 heq3 =>
          have hp : some (⟨seed, buildGrid h1 h2 h3 v1 v2 v3⟩ : DailyPuzzle) =
              some p := congrArg Prod.fst h
          exact ⟨v3, h2, h3, List.mem_cons_self _ _, hmem, heq2, heq3,
            (Option.some.inj hp).symm⟩
        next heq3 =>
          split at h
          · simp at h
          · obtain ⟨v3', h2', h3', hm, hnm, hf1, hf2, hp⟩ := ih ex (att + 1) p att' h
            exact ⟨v3', h2', h3', List.mem_cons_of_mem _ hm, hnm, hf1, hf2, hp⟩
      next heq2 =>
        split at h
        · simp at h
        · obtain ⟨v3', h2', h3', hm, hnm, hf1, hf2, hp⟩ := ih ex (att + 1) p att' h
          exact ⟨v3', h2', h3', List.mem_cons_of_mem _ hm, hnm, hf1, hf2, hp⟩

theorem loopV2_found (seed : Int) (words : List Wd) (h1 v1 : Wd) :
    ∀ (v2s ex : List Wd) (att : Nat) (p : DailyPuzzle) (att' : Nat),
    loopV2 seed words h1 v1 v2s ex att = (some p, att') →
    ∃ (v2 : Wd) (att₀ att₁ : Nat), v2 ∈ v2s ∧ v2 ∉ ex ∧
      loopV3 seed words h1 v1 v2 (wordsByStart words (h1.getD 4 ' '))
        (v2 :: ex) att₀ = (some p, att₁) := by
  intro v2s
  induction v2s with
  | nil =>
    intro ex att p att' h
    rw [loopV2] at h
    simp at h
  | cons v2 rest ih =>
    intro ex att p att' h
    rw [loopV2] at h
    split at h
    case isTrue hmem =>
      obtain ⟨v2', a0, a1, hm, hnm, hrec⟩ := ih ex att p att' h
      exact ⟨v2', a0, a1, List.mem_cons_of_mem _ hm, hnm, hrec⟩
    case isFalse hmem =>
      split at h
      next p' att0 heq =>
        have h1' : some p' = some p := congrArg Prod.fst h
        have h2' : att0 = att' := congrArg Prod.snd h
        exact ⟨v2, att, att0, List.mem_cons_self _ _, hmem,
          by rw [heq, Option.some.inj h1']⟩
      next att0 heq =>
        split at h
        · simp at h
        · obtain ⟨v2', a0, a1, hm, hnm, hrec⟩ := ih ex att0 p att' h
          exact ⟨v2', a0, a1, List.mem_cons_of_mem _ hm, hnm, hrec⟩

theorem loopV1_found (seed : Int) (words : List Wd) (h1 : Wd) :
    ∀ (v1s ex : List Wd) (att : Nat) (p : DailyPuzzle) (att' : Nat),
    loopV1 seed words h1 v1s ex att = (some p, att') →
    ∃ (v1 : Wd) (att₀ att₁ : Nat), v1 ∈ v1s ∧ v1 ∉ ex ∧
      loopV2 seed words h1 v1 (wordsByStart words (h1.getD 2 ' '))
        (v1 :: ex) att₀ = (some p, att₁) := by
  intro v1s
  induction v1s with
  | nil =>
    intro ex att p att' h
    rw [loopV1] at h
    simp at h
  | cons v1 rest ih =>
    intro ex att p att' h
    rw [loopV1] at h
    split at h
    case isTrue hmem =>
      obtain ⟨v1', a0, a1, hm, hnm, hrec⟩ := ih ex att p att' h
      exact ⟨v1', a0, a1, List.mem_cons_of_mem _ hm, hnm, hrec⟩
    case isFalse hmem =>
      split at h
      next p' att0 heq =>
        have h1' : some p' = some p := congrArg Prod.fst h
        exact ⟨v1, att, att0, List.mem_cons_self _ _, hmem,
          by rw [heq, Option.some.inj h1']⟩
      next att0 heq =>
        split at h
        · simp at h
        · obtain ⟨v1', a0, a1, hm, hnm, hrec⟩ := ih ex att0 p att' h
          exact ⟨v1', a0, a1, List.mem_cons_of_mem _ hm, hnm, hrec⟩

theorem loopH1_found (seed : Int) (words : List Wd) :
    ∀ (h1s : List Wd) (att : Nat) (p : DailyPuzzle) (att' : Nat),
    loopH1 seed words h1s att = (some p, att') →
    ∃ (h1 : Wd) (att₀ att₁ : Nat), h1 ∈ h1s ∧
      loopV1 seed words h1 (wordsByStart words (h1.getD 0 ' '))
        [h1] att₀ = (some p, att₁) := by
  intro h1s
  induction h1s with
  | nil =>
    intro att p att' h
    rw [loopH1] at h
    simp at h
  | cons h1 rest ih =>
    intro att p att' h
    rw [loopH1] at h
    split at h
    next p' att0 heq =>
      have h1' : some p' = some p := congrArg Prod.fst h
      exact ⟨h1, att, att0, List.mem_cons_self _ _,
        by rw [heq, Option.some.inj h1']⟩
    next att0 heq =>
      split at h
      · simp at h
      · obtain ⟨h1', a0, a1, hm, hrec⟩ := ih att0 p att' h
        exact ⟨h1', a0, a1, List.mem_cons_of_mem _ hm, hrec⟩

/-- C7: whenever `generatePuzzle` returns a solution, there are six pairwise
distinct words of the word list spelling rows 0/2/4 and columns 0/2/4 of the
returned 5×5 grid, agreeing at all nine intersections, with the four gap
cells blank. -/
theorem C7_puzzle_structure (wordList : List Wd) (seed : Int)
    (hlen5 : ∀ w ∈ wordList, w.length = 5) (p : DailyPuzzle)
    (hgen : generatePuzzle wordList seed = some p) :
    ∃ H1 H2 H3 V1 V2 V3 : Wd,
      H1 ∈ wordList ∧ H2 ∈ wordList ∧ H3 ∈ wordList ∧
      V1 ∈ wordList ∧ V2 ∈ wordList ∧ V3 ∈ wordList ∧
      List.Pairwise (· ≠ ·) [H1, H2, H3, V1, V2, V3] ∧
      p.solution.getD 0 [] = H1 ∧
      p.solution.getD 2 [] = H2 ∧
      p.solution.getD 4 [] = H3 ∧
      (p.solution.map fun row => row.getD 0 ' ') = V1 ∧
      (p.solution.map fun row => row.getD 2 ' ') = V2 ∧
      (p.solution.map fun row => row.getD 4 ' ') = V3 ∧
      H1.getD 0 ' ' = V1.getD 0 ' ' ∧ H1.getD 2 ' ' = V2.getD 0 ' ' ∧
      H1.getD 4 ' ' = V3.getD 0 ' ' ∧ V1.getD 2 ' ' = H2.getD 0 ' ' ∧
      V2.getD 2 ' ' = H2.getD 2 ' ' ∧ V3.getD 2 ' ' = H2.getD 4 ' ' ∧
      V1.getD 4 ' ' = H3.getD 0 ' ' ∧ V2.getD 4 ' ' = H3.getD 2 ' ' ∧
      V3.getD 4 ' ' = H3.getD 4 ' ' ∧
      (p.solution.getD 1 []).getD 1 ' ' = ' ' ∧
      (p.solution.getD 1 []).getD 3 ' ' = ' ' ∧
      (p.solution.getD 3 []).getD 1 ' ' = ' ' ∧
      (p.solution.getD 3 []).getD 3 ' ' = ' ' := by
  rcases hx : generatePuzzleAux wordList seed with ⟨res, att⟩
  unfold generatePuzzle at hgen
  rw [hx] at hgen
  dsimp only at hgen
  subst hgen
  unfold generatePuzzleAux at hx
  obtain ⟨h1, a0, a1, hh1mem, hv1loop⟩ := loopH1_found seed _ _ 0 p att hx
  obtain ⟨v1, b0, b1, hv1mem, hv1nm, hv2loop⟩ := loopV1_found seed _ h1 _ _ a0 p a1 hv1loop
  obtain ⟨v2, c0, c1, hv2mem, hv2nm, hv3loop⟩ := loopV2_found seed _ h1 v1 _ _ b0 p b1 hv2loop
  obtain ⟨v3, h2, h3, hv3mem, hv3nm, hf2, hf3, hpeq⟩ :=
    loopV3_found seed _ h1 v1 v2 _ _ c0 p c1 hv3loop
  obtain ⟨hv1w, hv1c⟩ := wordsByStart_spec hv1mem
  obtain ⟨hv2w, hv2c⟩ := wordsByStart_spec hv2mem
  obtain ⟨hv3w, hv3c⟩ := wordsByStart_spec hv3mem
  obtain ⟨hh2w, hh2c0, hh2c2, hh2c4, hh2ex⟩ := findMatch_spec hf2
  obtain ⟨hh3w, hh3c0, hh3c2, hh3c4, hh3ex⟩ := findMatch_spec hf3
  have hmem : ∀ w : Wd, w ∈ seededShuffle wordList seed → w ∈ wordList :=
    fun w hw => (seededShuffle_perm wordList seed).mem_iff.mp hw
  simp only [List.mem_cons, List.mem_singleton, List.not_mem_nil, or_false,
    not_or] at hv1nm hv2nm hv3nm hh2ex hh3ex
  have hw1 : h1 ∈ wordList := hmem h1 hh1mem
  have hw2 : h2 ∈ wordList := hmem h2 hh2w
  have hw3 : h3 ∈ wordList := hmem h3 hh3w
  have hwv1 : v1 ∈ wordList := hmem v1 hv1w
  have hwv2 : v2 ∈ wordList := hmem v2 hv2w
  have hwv3 : v3 ∈ wordList := hmem v3 hv3w
  have hpw : List.Pairwise (· ≠ ·) [h1, h2, h3, v1, v2, v3] := by
    refine List.Pairwise.cons ?_ (List.Pairwise.cons ?_ (List.Pairwise.cons ?_
      (List.Pairwise.cons ?_ (List.Pairwise.cons ?_ (List.pairwise_singleton _ _)))))
    · intro w hw
      simp only [List.mem_cons, List.mem_singleton, List.not_mem_nil, or_false] at hw
      rcases hw with rfl | rfl | rfl | rfl | rfl
      · exact Ne.symm hh2ex.2.2.2
      · exact Ne.symm hh3ex.2.2.2.2
      · exact Ne.symm hv1nm
      · exact Ne.symm hv2nm.2
      · exact Ne.symm hv3nm.2.2
    · intro w hw
      simp only [List.mem_cons, List.mem_singleton, List.not_mem_nil, or_false] at hw
      rcases hw with rfl | rfl | rfl | rfl
      · exact Ne.symm hh3ex.1
      · exact hh2ex.2.2.1
      · exact hh2ex.2.1
      · exact hh2ex.1
    · intro w hw
      simp only [List.mem_cons, List.mem_singleton, List.not_mem_nil, or_false] at hw
      rcases hw with rfl | rfl | rfl
      · exact hh3ex.2.2.2.1
      · exact hh3ex.2.2.1
      · exact hh3ex.2.1
    · intro w hw
      simp only [List.mem_cons, List.mem_singleton, List.not_mem_nil, or_false] at hw
      rcases hw with rfl | rfl
      · exact Ne.symm hv2nm.1
      · exact Ne.symm hv3nm.2.1
    · intro w hw
      simp only [List.mem_singleton, List.not_mem_nil, or_false] at hw
      rcases hw with rfl
      exact Ne.symm hv3nm.1
  subst hpeq
  refine ⟨h1, h2, h3, v1, v2, v3, hw1, hw2, hw3, hwv1, hwv2, hwv3, hpw,
    ?_, ?_, ?_, ?_, ?_, ?_,
    hv1c.symm, hv2c.symm, hv3c.symm, hh2c0.symm, hh2c2.symm, hh2c4.symm,
    hh3c0.symm, hh3c2.symm, hh3c4.symm, rfl, rfl, rfl, rfl⟩
  · exact (eq_of_len5 h1 (hlen5 h1 hw1)).symm
  · exact (eq_of_len5 h2 (hlen5 h2 hw2)).symm
  · exact (eq_of_len5 h3 (hlen5 h3 hw3)).symm
  · show [h1.getD 0 ' ', v1.getD 1 ' ', h2.getD 0 ' ', v1.getD 3 ' ',
      h3.getD 0 ' '] = v1
    rw [← hv1c, hh2c0, hh3c0]
    exact (eq_of_len5 v1 (hlen5 v1 hwv1)).symm
  · show [h1.getD 2 ' ', v2.getD 1 ' ', h2.getD 2 ' ', v2.getD 3 ' ',
      h3.getD 2 ' '] = v2
    rw [← hv2c, hh2c2, hh3c2]
    exact (eq_of_len5 v2 (hlen5 v2 hwv2)).symm
  · show [h1.getD 4 ' ', v3.getD 1 ' ', h2.getD 4 ' ', v3.getD 3 ' ',
      h3.getD 4 ' '] = v3
    rw [← hv3c, hh2c4, hh3c4]
    exact (eq_of_len5 v3 (hlen5 v3 hwv3)).symm

/-- Witness for C7: a 6-word list admitting exactly one waffle, for which
generation succeeds at seed 1 and the six-word structure exists. -/
theorem C7_witness :
    ∃ p : DailyPuzzle, generatePuzzle demoWords 1 = some p ∧
      ∃ H1 H2 H3 V1 V2 V3 : Wd,
        H1 ∈ demoWords ∧ H2 ∈ demoWords ∧ H3 ∈ demoWords ∧
        V1 ∈ demoWords ∧ V2 ∈ demoWords ∧ V3 ∈ demoWords ∧
        List.Pairwise (· ≠ ·) [H1, H2, H3, V1, V2, V3] ∧
        p.solution.getD 0 [] = H1 ∧
        p.solution.getD 2 [] = H2 ∧
        p.solution.getD 4 [] = H3 ∧
        (p.solution.map fun row => row.getD 0 ' ') = V1 ∧
        (p.solution.map fun row => row.getD 2 ' ') = V2 ∧
        (p.solution.map fun row => row.getD 4 ' ') = V3 ∧
        H1.getD 0 ' ' = V1.getD 0 ' ' ∧ H1.getD 2 ' ' = V2.getD 0 ' ' ∧
        H1.getD 4 ' ' = V3.getD 0 ' ' ∧ V1.getD 2 ' ' = H2.getD 0 ' ' ∧
        V2.getD 2 ' ' = H2.getD 2 ' ' ∧ V3.getD 2 ' ' = H2.getD 4 ' ' ∧
        V1.getD 4 ' ' = H3.getD 0 ' ' ∧ V2.getD 4 ' ' = H3.getD 2 ' ' ∧
        V3.getD 4 ' ' = H3.getD 4 ' ' ∧
        (p.solution.getD 1 []).getD 1 ' ' = ' ' ∧
        (p.solution.getD 1 []).getD 3 ' ' = ' ' ∧
        (p.solution.getD 3 []).getD 1 ' ' = ' ' ∧
        (p.solution.getD 3 []).getD 3 ' ' = ' ' := by
  have hs : (generatePuzzle demoWords 1).isSome = true := by decide
  refine ⟨(generatePuzzle demoWords 1).get hs, (Option.some_get hs).symm, ?_⟩
  exact C7_puzzle_structure demoWords 1 (by decide) _ (Option.some_get hs).symm

end Mkwaffle
